import Mathlib

/-!
# Verification of the AI-agents directory core

A shallow embedding, in Lean 4, of the algorithmic core of the
AI-agents directory repository: the catalog-entry data model
(`models.py`), the rating store (`rating_system.py`), the relevance
engine (`intelligent_search.py`) and the filter engine
(`data_loader.py`), together with theorems settling the frozen claims
about them.

Modelling conventions:
* Python strings are Lean `String`s; character-level primitives
  (`str.lower`, the regex classes `\w`, `\s`, substring membership)
  are modelled at ASCII semantics on `List Char`.
* Python `float` score arithmetic is modelled by exact rationals `ℚ`.
  (All weights are small decimal literals; no claim hinges on binary
  float rounding.)
* Python's `list.sort(key=..., reverse=True)` is a stable descending
  sort; it is embedded as the stable descending insertion sort
  `sortDescBy` below, which realises exactly the documented semantics
  (descending keys, ties in original order).
* The third-party fuzzywuzzy similarity primitives `fuzz.ratio` and
  `fuzz.partial_ratio` are external library behaviour, not repository
  code; they are modelled as function parameters returning an integer
  similarity in `0..100`, and theorems quantify over them.
* `datetime.now()` is modelled by an explicit timestamp parameter; the
  writable file system behind the ratings store is modelled by a
  `stored` copy of the list plus a `writable` flag.
-/

namespace AgentsDirectory

/- Batteries marks the `Rat` arithmetic operations `@[irreducible]`,
which blocks `decide`-style evaluation of concrete rational
computations; restore their normal reducibility for this development. -/
set_option allowUnsafeReducibility true
attribute [local semireducible] Rat.mul Rat.add Rat.sub Rat.inv

/-! ### ASCII string helpers -/

/-- ASCII model of Python `str.lower` (maps `A`–`Z` to `a`–`z`). -/
def lowerStr (s : String) : String := String.mk (s.data.map Char.toLower)

/-- Does `hay` start with `needle`?  Helper for the substring test. -/
def startsList : List Char → List Char → Bool
  | [], _ => true
  | _ :: _, [] => false
  | a :: as, b :: bs => a == b && startsList as bs

/-- Occurrence of `needle` as a contiguous substring of `hay`:
Python's `needle in hay` for strings. -/
def containsList : List Char → List Char → Bool
  | needle, [] => needle.isEmpty
  | needle, c :: t => startsList needle (c :: t) || containsList needle t

/-- Python `needle in hay` on strings. -/
def substrB (needle hay : String) : Bool := containsList needle.data hay.data

/-- Python `hay.startswith(needle)`. -/
def startsB (needle hay : String) : Bool := startsList needle.data hay.data

/-! ### Slug derivation (`models.py`, `Agent._create_slug`)

The Python code is
```
slug = re.sub(r'[^\w\s-]', '', name.lower())
slug = re.sub(r'[-\s]+', '-', slug)
return slug.strip('-')
```
`[^\w\s-]` removes every character that is not a word character
(alphanumeric or underscore, at ASCII semantics), whitespace or a
hyphen; `[-\s]+` collapses every maximal run of hyphens/whitespace to a
single hyphen; `strip('-')` trims hyphens at both ends. -/

/-- ASCII model of the regex class `\w`. -/
def isWordChar (c : Char) : Bool := c.isAlphanum || c == '_'

/-- A character that `[-\s]+` treats as a separator. -/
def isSepChar (c : Char) : Bool := c == '-' || c.isWhitespace

/-- The characters kept by `re.sub(r'[^\w\s-]', '', ·)`. -/
def keepChar (c : Char) : Bool := isWordChar c || c.isWhitespace || c == '-'

/-- `re.sub(r'[-\s]+', '-', ·)`: each maximal run of separators becomes
a single `'-'`.  The Boolean flag records whether the previous character
belonged to a separator run. -/
def collapseAux : Bool → List Char → List Char
  | _, [] => []
  | inRun, c :: rest =>
    if isSepChar c then
      if inRun then collapseAux true rest else '-' :: collapseAux true rest
    else c :: collapseAux false rest

/-- Python `str.strip('-')`: drop hyphens from both ends. -/
def stripHyphens (l : List Char) : List Char :=
  ((l.dropWhile (fun c => c == '-')).reverse.dropWhile (fun c => c == '-')).reverse

/-- Character-list form of `Agent._create_slug`. -/
def slugChars (l : List Char) : List Char :=
  stripHyphens (collapseAux false ((l.map Char.toLower).filter keepChar))

/-- `Agent._create_slug` from `models.py`. -/
def createSlug (name : String) : String := String.mk (slugChars name.data)

/-! ### Character facts -/

theorem char_eq_of_toNat_eq {c d : Char} (h : c.toNat = d.toNat) : c = d :=
  Char.ext (UInt32.toNat.inj h)

theorem isLower_iff_toNat (c : Char) : c.isLower = true ↔ 97 ≤ c.toNat ∧ c.toNat ≤ 122 := by
  simp only [Char.isLower, Bool.and_eq_true, decide_eq_true_eq, ge_iff_le, UInt32.le_def,
    BitVec.le_def]
  rfl

theorem isUpper_iff_toNat (c : Char) : c.isUpper = true ↔ 65 ≤ c.toNat ∧ c.toNat ≤ 90 := by
  simp only [Char.isUpper, Bool.and_eq_true, decide_eq_true_eq, ge_iff_le, UInt32.le_def,
    BitVec.le_def]
  rfl

theorem isDigit_iff_toNat (c : Char) : c.isDigit = true ↔ 48 ≤ c.toNat ∧ c.toNat ≤ 57 := by
  simp only [Char.isDigit, Bool.and_eq_true, decide_eq_true_eq, ge_iff_le, UInt32.le_def,
    BitVec.le_def]
  rfl

theorem isWhitespace_iff_toNat (c : Char) :
    c.isWhitespace = true ↔ c.toNat = 32 ∨ c.toNat = 9 ∨ c.toNat = 13 ∨ c.toNat = 10 := by
  simp only [Char.isWhitespace, Bool.or_eq_true, decide_eq_true_eq]
  constructor
  · rintro (((rfl | rfl) | rfl) | rfl) <;> decide
  · rintro (h | h | h | h)
    · exact Or.inl (Or.inl (Or.inl (@char_eq_of_toNat_eq c ' ' h)))
    · exact Or.inl (Or.inl (Or.inr (@char_eq_of_toNat_eq c '\t' h)))
    · exact Or.inl (Or.inr (@char_eq_of_toNat_eq c '\r' h))
    · exact Or.inr (@char_eq_of_toNat_eq c '\n' h)

theorem eq_hyphen_iff_toNat (c : Char) : c = '-' ↔ c.toNat = 45 := by
  constructor
  · rintro rfl; rfl
  · exact fun h => @char_eq_of_toNat_eq c '-' h

theorem toLower_toNat (c : Char) :
    (Char.toLower c).toNat = if c.toNat ≥ 65 ∧ c.toNat ≤ 90 then c.toNat + 32 else c.toNat := by
  rw [Char.toLower]
  split
  · next h => rw [Char.ofNat, dif_pos (Or.inl (by omega))]; rfl
  · next h => rfl

theorem toLower_toLower (c : Char) : (Char.toLower c).toLower = Char.toLower c := by
  apply char_eq_of_toNat_eq
  have h1 := toLower_toNat c
  have h2 := toLower_toNat (Char.toLower c)
  split at h1 <;> split at h2 <;> omega

theorem toLower_not_upper (c : Char) : (Char.toLower c).isUpper = false := by
  rw [Bool.eq_false_iff]
  intro h
  have h1 := toLower_toNat c
  have h2 := (isUpper_iff_toNat (Char.toLower c)).mp h
  split at h1 <;> omega

theorem word_not_sep {c : Char} (h : isWordChar c = true) : isSepChar c = false := by
  rcases Bool.or_eq_true_iff.mp h with ha | hu
  · rw [isSepChar, Bool.or_eq_false_iff]
    rcases Bool.or_eq_true_iff.mp ha with hal | hd
    · rcases Bool.or_eq_true_iff.mp hal with hup | hlo
      · have := (isUpper_iff_toNat c).mp hup
        constructor
        · rw [beq_eq_false_iff_ne]; intro hc; rw [eq_hyphen_iff_toNat] at hc; omega
        · rw [Bool.eq_false_iff]; intro hw; have := (isWhitespace_iff_toNat c).mp hw; omega
      · have := (isLower_iff_toNat c).mp hlo
        constructor
        · rw [beq_eq_false_iff_ne]; intro hc; rw [eq_hyphen_iff_toNat] at hc; omega
        · rw [Bool.eq_false_iff]; intro hw; have := (isWhitespace_iff_toNat c).mp hw; omega
    · have := (isDigit_iff_toNat c).mp hd
      constructor
      · rw [beq_eq_false_iff_ne]; intro hc; rw [eq_hyphen_iff_toNat] at hc; omega
      · rw [Bool.eq_false_iff]; intro hw; have := (isWhitespace_iff_toNat c).mp hw; omega
  · have : c = '_' := by
      have := beq_iff_eq.mp hu; exact this
    subst this; rfl

theorem sep_false_not_ws {c : Char} (h : isSepChar c = false) : c.isWhitespace = false :=
  (Bool.or_eq_false_iff.mp h).2

theorem sep_false_ne_hyphen {c : Char} (h : isSepChar c = false) : c ≠ '-' :=
  beq_eq_false_iff_ne.mp (Bool.or_eq_false_iff.mp h).1

/-! ### Properties of the run-collapsing pass -/

/-- Every character emitted by the collapsing pass is either the
substituted hyphen or a non-separator character of the input. -/
theorem mem_collapseAux :
    ∀ {b : Bool} {l : List Char} {c : Char}, c ∈ collapseAux b l →
      c = '-' ∨ (c ∈ l ∧ isSepChar c = false) := by
  intro b l
  induction l generalizing b with
  | nil => intro c hc; simp [collapseAux] at hc
  | cons a t ih =>
    intro c hc
    rw [collapseAux] at hc
    by_cases ha : isSepChar a = true
    · rw [if_pos ha] at hc
      cases b with
      | true =>
        rcases ih hc with h | ⟨hm, hs⟩
        · exact Or.inl h
        · exact Or.inr ⟨List.mem_cons_of_mem a hm, hs⟩
      | false =>
        rw [if_neg (by decide : ¬(false = true))] at hc
        rcases List.mem_cons.mp hc with h | h
        · exact Or.inl h
        · rcases ih h with h' | ⟨hm, hs⟩
          · exact Or.inl h'
          · exact Or.inr ⟨List.mem_cons_of_mem a hm, hs⟩
    · rw [if_neg ha] at hc
      rcases List.mem_cons.mp hc with h | h
      · exact Or.inr ⟨h ▸ List.mem_cons_self a t, h ▸ Bool.eq_false_iff.mpr ha⟩
      · rcases ih h with h' | ⟨hm, hs⟩
        · exact Or.inl h'
        · exact Or.inr ⟨List.mem_cons_of_mem a hm, hs⟩

/-- Inside a separator run the collapsing pass never emits a leading
hyphen: the next emitted character is a non-separator. -/
theorem collapseAux_true_head :
    ∀ {l : List Char} {x : Char}, (collapseAux true l).head? = some x →
      isSepChar x = false := by
  intro l
  induction l with
  | nil => intro x hx; simp [collapseAux] at hx
  | cons a t ih =>
    intro x hx
    rw [collapseAux] at hx
    by_cases ha : isSepChar a = true
    · rw [if_pos ha, if_pos rfl] at hx
      exact ih hx
    · rw [if_neg ha] at hx
      simp only [List.head?_cons, Option.some.injEq] at hx
      exact hx ▸ Bool.eq_false_iff.mpr ha

/-- The collapsing pass never emits two consecutive hyphens. -/
theorem chain'_collapseAux (b : Bool) (l : List Char) :
    (collapseAux b l).Chain' (fun a c => ¬(a = '-' ∧ c = '-')) := by
  induction l generalizing b with
  | nil => simp [collapseAux]
  | cons a t ih =>
    rw [collapseAux]
    by_cases ha : isSepChar a = true
    · rw [if_pos ha]
      cases b with
      | true => exact ih true
      | false =>
        rw [if_neg (by decide : ¬(false = true))]
        rw [List.chain'_cons']
        refine ⟨?_, ih true⟩
        intro y hy
        intro ⟨_, hy'⟩
        have := collapseAux_true_head (Option.mem_def.mp hy)
        exact sep_false_ne_hyphen this hy'
    · rw [if_neg ha]
      rw [List.chain'_cons']
      refine ⟨?_, ih false⟩
      intro y hy
      intro ⟨ha', _⟩
      exact sep_false_ne_hyphen (Bool.eq_false_iff.mpr ha) ha'

/-- On a list with no whitespace, no double hyphen, and (when the flag
says a run is open) no leading hyphen, the collapsing pass is the
identity. -/
theorem collapseAux_eq_self :
    ∀ {b : Bool} {l : List Char},
      (∀ c ∈ l, c.isWhitespace = false) →
      l.Chain' (fun a c => ¬(a = '-' ∧ c = '-')) →
      (b = true → ∀ x, l.head? = some x → x ≠ '-') →
      collapseAux b l = l := by
  intro b l
  induction l generalizing b with
  | nil => intro _ _ _; rfl
  | cons a t ih =>
    intro hws hch hh
    rw [collapseAux]
    by_cases ha : isSepChar a = true
    · have haeq : a = '-' := by
        rcases Bool.or_eq_true_iff.mp ha with h | h
        · exact beq_iff_eq.mp h
        · exact absurd h (by rw [hws a (List.mem_cons_self a t)]; simp)
      rw [if_pos ha]
      cases b with
      | true => exact absurd haeq (hh rfl a rfl)
      | false =>
        rw [if_neg (by decide : ¬(false = true))]
        rw [ih (fun c hc => hws c (List.mem_cons_of_mem a hc))
            (List.chain'_cons'.mp hch).2 ?_]
        · rw [haeq]
        · intro _ x hx
          have := (List.chain'_cons'.mp hch).1 x (Option.mem_def.mpr hx)
          intro hx'
          exact this ⟨haeq, hx'⟩
    · rw [if_neg ha]
      rw [ih (fun c hc => hws c (List.mem_cons_of_mem a hc))
          (List.chain'_cons'.mp hch).2 (by intro h; cases h)]

/-! ### Properties of hyphen stripping -/

theorem head?_dropWhile {p : Char → Bool} {l : List Char} {x : Char}
    (h : (l.dropWhile p).head? = some x) : p x = false := by
  induction l with
  | nil => simp [List.dropWhile] at h
  | cons a t ih =>
    rw [List.dropWhile_cons] at h
    split at h
    · exact ih h
    · next hp =>
      simp only [List.head?_cons, Option.some.injEq] at h
      exact h ▸ Bool.eq_false_iff.mpr hp

theorem dropWhile_eq_self {p : Char → Bool} {l : List Char}
    (h : ∀ x, l.head? = some x → p x = false) : l.dropWhile p = l := by
  cases l with
  | nil => rfl
  | cons a t => rw [List.dropWhile_cons, if_neg (by rw [h a rfl]; exact Bool.false_ne_true)]

theorem stripHyphens_subset (l : List Char) : stripHyphens l ⊆ l := by
  intro c hc
  rw [stripHyphens, List.mem_reverse] at hc
  have hc2 := (List.dropWhile_suffix _).subset hc
  rw [List.mem_reverse] at hc2
  exact (List.dropWhile_suffix _).subset hc2

theorem stripHyphens_chain' {l : List Char}
    (h : l.Chain' fun a c => ¬(a = '-' ∧ c = '-')) :
    (stripHyphens l).Chain' fun a c => ¬(a = '-' ∧ c = '-') := by
  have hR : ∀ a b : Char, (¬(a = '-' ∧ b = '-')) → ¬(b = '-' ∧ a = '-') :=
    fun a b hab ⟨h1, h2⟩ => hab ⟨h2, h1⟩
  rw [stripHyphens]
  have hs1 : (l.dropWhile fun c => c == '-') <:+ l := List.dropWhile_suffix _
  have h1 := h.suffix hs1
  have h2 := List.chain'_reverse.mpr (h1.imp fun a b hab => hR a b hab)
  have hs2 : ((l.dropWhile fun c => c == '-').reverse.dropWhile fun c => c == '-') <:+
      (l.dropWhile fun c => c == '-').reverse := List.dropWhile_suffix _
  have h3 := h2.suffix hs2
  exact List.chain'_reverse.mpr (h3.imp fun a b hab => hR a b hab)

theorem stripHyphens_head {l : List Char} {x : Char}
    (h : (stripHyphens l).head? = some x) : x ≠ '-' := by
  rw [stripHyphens, List.head?_reverse] at h
  generalize hm : (l.dropWhile fun c => c == '-') = m at h
  have hne : (m.reverse.dropWhile fun c => c == '-') ≠ [] := by
    intro he; rw [he] at h; cases h
  have hsuf : (m.reverse.dropWhile fun c => c == '-') <:+ m.reverse :=
    List.dropWhile_suffix _
  obtain ⟨t, ht⟩ := hsuf
  have h2 : (t ++ (m.reverse.dropWhile fun c => c == '-')).getLast? = some x := by
    rw [List.getLast?_append_of_ne_nil t hne]; exact h
  rw [ht, List.getLast?_reverse, ← hm] at h2
  have hx := @head?_dropWhile (fun c => c == '-') l x h2
  exact beq_eq_false_iff_ne.mp hx

theorem stripHyphens_last {l : List Char} {x : Char}
    (h : (stripHyphens l).getLast? = some x) : x ≠ '-' := by
  rw [stripHyphens, List.getLast?_reverse] at h
  have hx := @head?_dropWhile (fun c => c == '-')
    ((l.dropWhile fun c => c == '-').reverse) x h
  exact beq_eq_false_iff_ne.mp hx

theorem stripHyphens_eq_self {l : List Char}
    (hh : ∀ x, l.head? = some x → x ≠ '-')
    (hl : ∀ x, l.getLast? = some x → x ≠ '-') :
    stripHyphens l = l := by
  rw [stripHyphens]
  have e1 : (l.dropWhile fun c => c == '-') = l :=
    dropWhile_eq_self fun x hx => beq_eq_false_iff_ne.mpr (hh x hx)
  rw [e1]
  have e2 : (l.reverse.dropWhile fun c => c == '-') = l.reverse :=
    dropWhile_eq_self fun x hx => by
      rw [List.head?_reverse] at hx
      exact beq_eq_false_iff_ne.mpr (hl x hx)
  rw [e2, List.reverse_reverse]

/-! ### Slug properties (claim C3) -/

theorem slugChars_mem {l : List Char} {c : Char} (hc : c ∈ slugChars l) :
    c.isLower = true ∨ c.isDigit = true ∨ c = '_' ∨ c = '-' := by
  rcases mem_collapseAux (stripHyphens_subset _ hc) with h | ⟨hm, hs⟩
  · exact Or.inr (Or.inr (Or.inr h))
  · have hkeep : keepChar c = true := List.of_mem_filter hm
    have hmap : c ∈ l.map Char.toLower := List.mem_of_mem_filter hm
    rcases Bool.or_eq_true_iff.mp hkeep with hw | hhy
    · rcases Bool.or_eq_true_iff.mp hw with hword | hws
      · rcases Bool.or_eq_true_iff.mp hword with han | hu
        · rcases Bool.or_eq_true_iff.mp han with hal | hd
          · rcases Bool.or_eq_true_iff.mp hal with hup | hlo
            · rcases List.mem_map.mp hmap with ⟨c₀, _, rfl⟩
              rw [toLower_not_upper c₀] at hup; cases hup
            · exact Or.inl hlo
          · exact Or.inr (Or.inl hd)
        · exact Or.inr (Or.inr (Or.inl (beq_iff_eq.mp hu)))
      · rw [sep_false_not_ws hs] at hws; cases hws
    · exact absurd (beq_iff_eq.mp hhy) (sep_false_ne_hyphen hs)

theorem slugChars_chain' (l : List Char) :
    (slugChars l).Chain' fun a c => ¬(a = '-' ∧ c = '-') :=
  stripHyphens_chain' (chain'_collapseAux false _)

theorem slugChars_head {l : List Char} {x : Char}
    (h : (slugChars l).head? = some x) : x ≠ '-' :=
  stripHyphens_head h

theorem slugChars_last {l : List Char} {x : Char}
    (h : (slugChars l).getLast? = some x) : x ≠ '-' :=
  stripHyphens_last h

theorem slugChars_no_ws {l : List Char} {c : Char} (hc : c ∈ slugChars l) :
    c.isWhitespace = false := by
  rcases mem_collapseAux (stripHyphens_subset _ hc) with h | ⟨_, hs⟩
  · subst h; rfl
  · exact sep_false_not_ws hs

theorem slugChars_idem (l : List Char) : slugChars (slugChars l) = slugChars l := by
  conv_lhs => rw [slugChars]
  have e1 : (slugChars l).map Char.toLower = slugChars l := by
    conv_rhs => rw [← List.map_id (slugChars l)]
    apply List.map_congr_left
    intro x hx
    rcases mem_collapseAux (stripHyphens_subset _ hx) with h | ⟨hm, _⟩
    · subst h; decide
    · rcases List.mem_map.mp (List.mem_of_mem_filter hm) with ⟨c₀, _, rfl⟩
      exact toLower_toLower c₀
  rw [e1]
  have e2 : (slugChars l).filter keepChar = slugChars l := by
    apply List.filter_eq_self.mpr
    intro a ha
    rcases mem_collapseAux (stripHyphens_subset _ ha) with h | ⟨hm, _⟩
    · subst h; decide
    · exact List.of_mem_filter hm
  rw [e2]
  have e3 : collapseAux false (slugChars l) = slugChars l :=
    collapseAux_eq_self (fun c hc => slugChars_no_ws hc) (slugChars_chain' l)
      (by intro h; cases h)
  rw [e3]
  exact stripHyphens_eq_self (fun x hx => slugChars_head hx) fun x hx => slugChars_last hx

/-- **C3, counterexample.**  The claim asserts that a slug contains only
lowercase alphanumerics and hyphens.  `_create_slug` keeps every `\w`
character, and `\w` includes the underscore, so the name `"a_b"`
produces the slug `"a_b"`, which contains a character that is neither a
lowercase alphanumeric nor a hyphen. -/
theorem createSlug_underscore_escapes :
    createSlug "a_b" = "a_b" ∧ '_' ∈ (createSlug "a_b").data ∧
    ¬('_'.isLower = true ∨ '_'.isDigit = true ∨ '_' = '-') := by decide

/-- **C3, amended.**  For every raw name, slug derivation is idempotent,
and the resulting slug contains only lowercase alphanumerics,
underscores (which `\w` keeps) and hyphens, with no two consecutive
hyphens and no leading or trailing hyphen. -/
theorem createSlug_idempotent_charset (name : String) :
    createSlug (createSlug name) = createSlug name ∧
    (∀ c ∈ (createSlug name).data, c.isLower = true ∨ c.isDigit = true ∨ c = '_' ∨ c = '-') ∧
    ((createSlug name).data.Chain' fun a c => ¬(a = '-' ∧ c = '-')) ∧
    ((createSlug name).data.head?.all fun c => !(c == '-')) = true ∧
    ((createSlug name).data.getLast?.all fun c => !(c == '-')) = true := by
  refine ⟨congrArg String.mk (slugChars_idem name.data), fun c hc => slugChars_mem hc,
    slugChars_chain' name.data, ?_, ?_⟩
  · cases hh : (createSlug name).data.head? with
    | none => rfl
    | some x =>
      have hx : x ≠ '-' := slugChars_head hh
      show (!(x == '-')) = true
      rw [beq_eq_false_iff_ne.mpr hx]; rfl
  · cases hh : (createSlug name).data.getLast? with
    | none => rfl
    | some x =>
      have hx : x ≠ '-' := slugChars_last hh
      show (!(x == '-')) = true
      rw [beq_eq_false_iff_ne.mpr hx]; rfl

/-- Witness for `createSlug_idempotent_charset` at the concrete name
`"My App 2.0"` (whose slug is `"my-app-20"`). -/
theorem createSlug_idempotent_charset_witness :
    createSlug (createSlug "My App 2.0") = createSlug "My App 2.0" ∧
    ('m'.isLower = true ∨ 'm'.isDigit = true ∨ 'm' = '_' ∨ 'm' = '-') :=
  ⟨(createSlug_idempotent_charset "My App 2.0").1,
   (createSlug_idempotent_charset "My App 2.0").2.1 'm' (by decide)⟩

/-! ### The catalog-entry data model (`models.py`) -/

/-- Python `s.split(sep)` for a one-character separator. -/
def splitOnChar (sep : Char) : List Char → List (List Char)
  | [] => [[]]
  | c :: t =>
    if c = sep then [] :: splitOnChar sep t
    else
      match splitOnChar sep t with
      | [] => [[c]]
      | h :: t' => (c :: h) :: t'

/-- Python `str.strip()` (ASCII whitespace at both ends). -/
def trimChars (l : List Char) : List Char :=
  ((l.dropWhile Char.isWhitespace).reverse.dropWhile Char.isWhitespace).reverse

/-- Python `str.strip()` on strings. -/
def trimStr (s : String) : String := String.mk (trimChars s.data)

/-- The list comprehension `[d.strip() for d in s.split(';') if d.strip()]`
used by `__post_init__` for the three multi-valued attributes. -/
def splitTokens (s : String) : List String :=
  (((splitOnChar ';' s.data).map fun t => String.mk (trimChars t)).filter fun t => t != "")

/-- `Agent._clean_pricing` from `models.py`. -/
def cleanPricing (pricing : String) : String :=
  let p := trimStr pricing
  if p = "" ∨ lowerStr p = "free" ∨ lowerStr p = "" then "Free"
  else if substrB "freemium" (lowerStr p) then "Freemium"
  else if substrB "paid" (lowerStr p) || substrB "$" (lowerStr p) ||
      substrB "subscription" (lowerStr p) || substrB "plan" (lowerStr p) then "Paid"
  else p

/-- `Agent._clean_url` from `models.py`. -/
def cleanUrl (url : String) : String :=
  if url = "" ∨ lowerStr url = "nan" ∨ lowerStr url = "none" ∨ lowerStr url = "null" ∨
      lowerStr url = "" then ""
  else
    let u := trimStr url
    if startsB "http://" u || startsB "https://" u then u
    else if startsB "/" u then u
    else if substrB "." u && !(startsB "ftp://" u || startsB "file://" u) then
      "https://" ++ u
    else u

/-- The catalog-entry record of `models.py` (`Agent`): the raw
constructor fields together with the derived fields that
`__post_init__` computes. -/
structure Agent where
  name : String
  domains : String
  use_cases : String
  short_desc : String
  long_desc : String
  creator : String
  url : String
  platform : String
  pricing : String
  underlying_model : String
  deployment : String
  legitimacy : String
  what_users_think : String
  slug : String
  domain_list : List String
  use_case_list : List String
  platform_list : List String
  pricing_clean : String
  primary_use_case : String
  primary_domain : String
deriving DecidableEq

/-- Construction of an `Agent` from its raw fields, performing exactly
the derivations of `__post_init__` (which also overwrites `self.url`
with its cleaned form). -/
def mkAgent (name domains use_cases short_desc long_desc creator url platform pricing
    underlying_model deployment legitimacy what_users_think : String) : Agent :=
  ⟨name, domains, use_cases, short_desc, long_desc, creator, cleanUrl url, platform, pricing,
   underlying_model, deployment, legitimacy, what_users_think,
   createSlug name, splitTokens domains, splitTokens use_cases, splitTokens platform,
   cleanPricing pricing,
   (splitTokens use_cases).headD "General",
   (splitTokens domains).headD "General AI"⟩

/-- **C10.**  For every constructed catalog entry, `primary_domain` is
the first trimmed non-empty token of the `domains` string when one
exists and the default `"General AI"` otherwise, and likewise
`primary_use_case` with default `"General"`. -/
theorem mkAgent_primary_fields (name domains use_cases short_desc long_desc creator url
    platform pricing underlying_model deployment legitimacy what_users_think : String) :
    (∀ t ts, splitTokens domains = t :: ts →
      (mkAgent name domains use_cases short_desc long_desc creator url platform pricing
        underlying_model deployment legitimacy what_users_think).primary_domain = t) ∧
    (splitTokens domains = [] →
      (mkAgent name domains use_cases short_desc long_desc creator url platform pricing
        underlying_model deployment legitimacy what_users_think).primary_domain =
        "General AI") ∧
    (∀ t ts, splitTokens use_cases = t :: ts →
      (mkAgent name domains use_cases short_desc long_desc creator url platform pricing
        underlying_model deployment legitimacy what_users_think).primary_use_case = t) ∧
    (splitTokens use_cases = [] →
      (mkAgent name domains use_cases short_desc long_desc creator url platform pricing
        underlying_model deployment legitimacy what_users_think).primary_use_case =
        "General") := by
  refine ⟨?_, ?_, ?_, ?_⟩
  · intro t ts h
    show (splitTokens domains).headD "General AI" = t
    rw [h]; rfl
  · intro h
    show (splitTokens domains).headD "General AI" = "General AI"
    rw [h]; rfl
  · intro t ts h
    show (splitTokens use_cases).headD "General" = t
    rw [h]; rfl
  · intro h
    show (splitTokens use_cases).headD "General" = "General"
    rw [h]; rfl

/-- Witness for `mkAgent_primary_fields`: `" Legal ; Tax "` tokenizes
to `["Legal", "Tax"]`, so the primary domain is `"Legal"`; an empty
use-case string falls back to `"General"`. -/
theorem mkAgent_primary_fields_witness :
    (mkAgent "Alpha" " Legal ; Tax " "" "" "" "" "" "" "" "" "" "" "").primary_domain =
      "Legal" ∧
    (mkAgent "Alpha" " Legal ; Tax " "" "" "" "" "" "" "" "" "" "" "").primary_use_case =
      "General" :=
  ⟨(mkAgent_primary_fields "Alpha" " Legal ; Tax " "" "" "" "" "" "" "" "" "" "" "").1
      "Legal" ["Tax"] (by decide),
   (mkAgent_primary_fields "Alpha" " Legal ; Tax " "" "" "" "" "" "" "" "" "" "" "").2.2.2
      (by decide)⟩

/-! ### A stable descending sort

Python's `list.sort(key=..., reverse=True)` is a stable sort producing
descending key order (ties keep their original relative order; with
`reverse=True` ties are *not* reversed).  It is embedded as insertion
sort with the rule "insert the earlier element before the first
element it is `ge` to": this is structurally recursive (so it
evaluates inside the kernel), stable, and descending — exactly the
documented Python semantics. -/

/-- Insert `x` before the first element `y` with `le y x`. -/
def insertDescBy {α : Type} (le : α → α → Bool) (x : α) : List α → List α
  | [] => [x]
  | y :: ys => if le y x then x :: y :: ys else y :: insertDescBy le x ys

/-- Stable descending insertion sort with respect to `le`. -/
def sortDescBy {α : Type} (le : α → α → Bool) : List α → List α
  | [] => []
  | x :: xs => insertDescBy le x (sortDescBy le xs)

theorem insertDescBy_perm {α : Type} (le : α → α → Bool) (x : α) (l : List α) :
    (insertDescBy le x l).Perm (x :: l) := by
  induction l with
  | nil => exact List.Perm.refl _
  | cons y ys ih =>
    rw [insertDescBy]
    split
    · exact List.Perm.refl _
    · exact (ih.cons y).trans (List.Perm.swap x y ys)

theorem sortDescBy_perm {α : Type} (le : α → α → Bool) (l : List α) :
    (sortDescBy le l).Perm l := by
  induction l with
  | nil => exact List.Perm.refl _
  | cons x xs ih => exact (insertDescBy_perm le x _).trans (ih.cons x)

theorem insertDescBy_pairwise {α : Type} {le : α → α → Bool}
    (hto : ∀ a b, le a b || le b a)
    (htr : ∀ a b c, le a b = true → le b c = true → le a c = true)
    (x : α) {l : List α} (hl : l.Pairwise fun a b => le b a = true) :
    (insertDescBy le x l).Pairwise fun a b => le b a = true := by
  induction l with
  | nil => simp [insertDescBy]
  | cons y ys ih =>
    rcases List.pairwise_cons.mp hl with ⟨hy, hys⟩
    rw [insertDescBy]
    split
    · next h =>
      refine List.pairwise_cons.mpr ⟨?_, hl⟩
      intro b hb
      rcases List.mem_cons.mp hb with rfl | hb'
      · exact h
      · exact htr b y x (hy b hb') h
    · next h =>
      have hxy : le x y = true := by
        rcases Bool.or_eq_true_iff.mp (hto y x) with h1 | h1
        · exact absurd h1 h
        · exact h1
      refine List.pairwise_cons.mpr ⟨?_, ih hys⟩
      intro b hb
      rcases List.mem_cons.mp ((insertDescBy_perm le x ys).mem_iff.mp hb) with rfl | hb'
      · exact hxy
      · exact hy b hb'

theorem sortDescBy_pairwise {α : Type} {le : α → α → Bool}
    (hto : ∀ a b, le a b || le b a)
    (htr : ∀ a b c, le a b = true → le b c = true → le a c = true) (l : List α) :
    (sortDescBy le l).Pairwise fun a b => le b a = true := by
  induction l with
  | nil => simp [sortDescBy]
  | cons x xs ih => exact insertDescBy_pairwise hto htr x ih

/-- Stability: filtering the sorted list by a predicate on which all
satisfying elements tie recovers the filter of the input, in input
order. -/
theorem insertDescBy_filter {α : Type} {le : α → α → Bool} (p : α → Bool)
    (hp : ∀ a b, p a = true → p b = true → le a b = true) (x : α) (l : List α) :
    (insertDescBy le x l).filter p =
      if p x then x :: l.filter p else l.filter p := by
  induction l with
  | nil => simp [insertDescBy, List.filter_cons]
  | cons y ys ih =>
    rw [insertDescBy]
    split
    · next h => exact List.filter_cons
    · next h =>
      by_cases hx : p x = true
      · have hy : p y = false := by
          rcases Bool.eq_false_or_eq_true (p y) with h1 | h1
          · exact absurd (hp y x h1 hx) h
          · exact h1
        simp [List.filter_cons, ih, hx, hy]
      · have hx' : p x = false := Bool.eq_false_iff.mpr hx
        simp [List.filter_cons, ih, hx']

theorem sortDescBy_filter {α : Type} {le : α → α → Bool} (p : α → Bool)
    (hp : ∀ a b, p a = true → p b = true → le a b = true) (l : List α) :
    (sortDescBy le l).filter p = l.filter p := by
  induction l with
  | nil => rfl
  | cons x xs ih =>
    rw [sortDescBy, insertDescBy_filter p hp, ih, List.filter_cons]

/-! ### The rating store (`rating_system.py`) -/

/-- One stored rating record.  `timestamp` models the ISO timestamp
string produced by `datetime.now().isoformat()` (ISO order is plain
order, so a numeric model suffices). -/
structure RatingEntry where
  agent_slug : String
  rating : ℤ
  feedback : String
  timestamp : ℕ
  user_identifier : String
deriving DecidableEq

/-- The `RatingSystem` state: the in-memory list `self.ratings`, the
persisted contents of the ratings file, and whether the store is
writable (an unwritable store makes `json.dump` raise inside
`_save_ratings`). -/
structure RatingsState where
  ratings : List RatingEntry
  stored : List RatingEntry
  writable : Bool
deriving DecidableEq

/-- `RatingSystem._save_ratings`: attempts to persist `self.ratings`.
Any exception is caught and logged *inside* this method (source lines
29–35), so a failed save changes nothing and raises nothing to the
caller. -/
def saveRatings (st : RatingsState) : RatingsState :=
  if st.writable then ⟨st.ratings, st.ratings, st.writable⟩ else st

/-- `RatingSystem.add_rating`.  `now` stands for `datetime.now()`; the
Boolean is the method's return value.  After the `1 <= rating <= 5`
check the method appends to the in-memory list and then calls
`_save_ratings`; since `_save_ratings` swallows its own exceptions the
surrounding `try` never reaches its `except` arm. -/
def addRating (st : RatingsState) (slug : String) (rating : ℤ) (feedback user : String)
    (now : ℕ) : Bool × RatingsState :=
  if ¬(1 ≤ rating ∧ rating ≤ 5) then (false, st)
  else
    (true, saveRatings ⟨st.ratings ++
      [⟨slug, rating, trimStr feedback, now, if user = "" then "anonymous" else user⟩],
      st.stored, st.writable⟩)

/-- Round-half-to-even on rationals: the behaviour of Python's
built-in `round` at exact decimal values. -/
def roundHalfEven (x : ℚ) : ℤ :=
  if x - x.floor < 1/2 then x.floor
  else if 1/2 < x - x.floor then x.floor + 1
  else if x.floor % 2 = 0 then x.floor else x.floor + 1

/-- Python `round(x, 1)` modelled on exact rationals. -/
def pyRound1 (x : ℚ) : ℚ := (roundHalfEven (x * 10) : ℚ) / 10

/-- The aggregate returned by `RatingSystem.get_agent_ratings`.
`ratings_breakdown i` models `ratings_breakdown[i]` for the keys
`1..5`; for a stored score outside `1..5` the Python dict update would
raise `KeyError`, but every rating admitted by `add_rating` is in
range. -/
structure AgentRatingsInfo where
  average_rating : ℚ
  total_ratings : ℕ
  ratings_breakdown : ℤ → ℕ
  recent_reviews : List RatingEntry

/-- Timestamp comparison: `sorted(..., key=lambda x: x['timestamp'],
reverse=True)` orders stably by the reverse of this. -/
def tsLe (a b : RatingEntry) : Bool := decide (a.timestamp ≤ b.timestamp)

/-- The ratings recorded for `s`, in store order: this is both the
`ratings_values` list of `get_agent_ratings` and `agent_stats[s]`
after the accumulation loop of `get_top_rated_agents`. -/
def statsFor (rs : List RatingEntry) (s : String) : List ℤ :=
  (rs.filter fun r => r.agent_slug == s).map fun r => r.rating

/-- `RatingSystem.get_agent_ratings`. -/
def getAgentRatings (rs : List RatingEntry) (slug : String) : AgentRatingsInfo :=
  if (rs.filter fun r => r.agent_slug == slug).isEmpty then
    ⟨0, 0, fun _ => 0, []⟩
  else
    ⟨pyRound1 (((statsFor rs slug).sum : ℚ) / ((statsFor rs slug).length : ℚ)),
     (rs.filter fun r => r.agent_slug == slug).length,
     fun i => (statsFor rs slug).count i,
     ((sortDescBy tsLe (rs.filter fun r => r.agent_slug == slug)).filter fun r =>
       trimStr r.feedback != "").take 5⟩

/-- The per-slug summary built by `RatingSystem.get_top_rated_agents`. -/
structure TopAgentStat where
  agent_slug : String
  average_rating : ℚ
  total_ratings : ℕ
deriving DecidableEq

/-- Lexicographic comparison on `(average_rating, total_ratings)`:
the pair key of `top_agents.sort(key=lambda x: (x['average_rating'],
x['total_ratings']), reverse=True)`, which orders stably by the
reverse of this. -/
def topLe (a b : TopAgentStat) : Bool :=
  decide (a.average_rating < b.average_rating ∨
    (a.average_rating = b.average_rating ∧ a.total_ratings ≤ b.total_ratings))

/-- The key iteration order of the `agent_stats` dict: first
occurrence of each slug (Python dicts preserve insertion order). -/
def firstOccs : List String → List String
  | [] => []
  | s :: t => s :: (firstOccs t).filter fun x => x != s

/-- The `top_agents` list of `get_top_rated_agents` before sorting. -/
def topCandidates (rs : List RatingEntry) (minRatings : ℕ) : List TopAgentStat :=
  (firstOccs (rs.map fun r => r.agent_slug)).filterMap fun s =>
    if minRatings ≤ (statsFor rs s).length then
      some ⟨s, pyRound1 (((statsFor rs s).sum : ℚ) / ((statsFor rs s).length : ℚ)),
        (statsFor rs s).length⟩
    else none

/-- `RatingSystem.get_top_rated_agents`. -/
def getTopRated (rs : List RatingEntry) (minRatings limit : ℕ) : List TopAgentStat :=
  (sortDescBy topLe (topCandidates rs minRatings)).take limit

/-- `RatingSystem.get_recent_reviews`. -/
def getRecentReviews (rs : List RatingEntry) (limit : ℕ) : List RatingEntry :=
  (sortDescBy tsLe (rs.filter fun r => trimStr r.feedback != "")).take limit

/-! ### Claims C1, C7, C8, C9 -/

/-- **C1, counterexample.**  The claim asserts that on an unwritable
store `add_rating` reports a failure and the in-memory list is
unchanged.  In the code, `_save_ratings` catches and merely logs the
write error, the list is mutated *before* the save attempt, and
`add_rating` returns `True`: on an empty unwritable store, adding a
valid rating reports success and the in-memory list has grown. -/
theorem addRating_unwritable_reports_success :
    (addRating ⟨[], [], false⟩ "agent-x" 5 "nice tool" "" 0).1 = true ∧
    (addRating ⟨[], [], false⟩ "agent-x" 5 "nice tool" "" 0).2.ratings =
      [⟨"agent-x", 5, "nice tool", 0, "anonymous"⟩] := by decide

/-- **C1, amended.**  When the store is unwritable and the score is in
range, `add_rating` still returns success (`_save_ratings` swallows
the persistence error), the in-memory list gains the appended rating
(mutation happens before persistence), and only the persisted copy is
left unchanged. -/
theorem addRating_unwritable_behavior (st : RatingsState) (slug : String) (r : ℤ)
    (fb user : String) (now : ℕ) (hw : st.writable = false) (hr : 1 ≤ r ∧ r ≤ 5) :
    (addRating st slug r fb user now).1 = true ∧
    (addRating st slug r fb user now).2.ratings =
      st.ratings ++ [⟨slug, r, trimStr fb, now, if user = "" then "anonymous" else user⟩] ∧
    (addRating st slug r fb user now).2.stored = st.stored := by
  have hcond : ¬¬(1 ≤ r ∧ r ≤ 5) := not_not_intro hr
  rw [addRating, if_neg hcond]
  have hsv : ∀ l : List RatingEntry,
      saveRatings ⟨l, st.stored, st.writable⟩ = ⟨l, st.stored, st.writable⟩ := by
    intro l
    rw [saveRatings, if_neg]
    show ¬((⟨l, st.stored, st.writable⟩ : RatingsState).writable = true)
    rw [hw]
    exact Bool.false_ne_true
  exact ⟨rfl, by rw [hsv], by rw [hsv]⟩

/-- Witness for `addRating_unwritable_behavior` on a concrete
unwritable one-entry store. -/
theorem addRating_unwritable_behavior_witness :
    (addRating ⟨[⟨"a", 3, "", 0, "u"⟩], [⟨"a", 3, "", 0, "u"⟩], false⟩ "b" 4 " ok " "eve" 7).1 =
      true ∧
    (addRating ⟨[⟨"a", 3, "", 0, "u"⟩], [⟨"a", 3, "", 0, "u"⟩], false⟩ "b" 4 " ok " "eve" 7).2.ratings =
      [⟨"a", 3, "", 0, "u"⟩] ++
        [⟨"b", 4, trimStr " ok ", 7, if "eve" = "" then "anonymous" else "eve"⟩] ∧
    (addRating ⟨[⟨"a", 3, "", 0, "u"⟩], [⟨"a", 3, "", 0, "u"⟩], false⟩ "b" 4 " ok " "eve" 7).2.stored =
      [⟨"a", 3, "", 0, "u"⟩] :=
  addRating_unwritable_behavior ⟨[⟨"a", 3, "", 0, "u"⟩], [⟨"a", 3, "", 0, "u"⟩], false⟩
    "b" 4 " ok " "eve" 7 rfl (by decide)

/-- **C8.**  For any score outside `1..5`, `add_rating` returns the
failure value without mutating anything, so every aggregate reads the
same before and after the call.  (The early `return False` happens
before the entry is built, so no exception can arise.) -/
theorem addRating_out_of_range_noop (st : RatingsState) (slug : String) (r : ℤ)
    (fb user : String) (now : ℕ) (hr : r < 1 ∨ 5 < r) :
    (addRating st slug r fb user now).1 = false ∧
    (addRating st slug r fb user now).2 = st ∧
    (∀ s, getAgentRatings (addRating st slug r fb user now).2.ratings s =
      getAgentRatings st.ratings s) ∧
    (∀ m l, getTopRated (addRating st slug r fb user now).2.ratings m l =
      getTopRated st.ratings m l) ∧
    (∀ l, getRecentReviews (addRating st slug r fb user now).2.ratings l =
      getRecentReviews st.ratings l) := by
  have hcond : ¬(1 ≤ r ∧ r ≤ 5) := by omega
  rw [addRating, if_pos hcond]
  exact ⟨rfl, rfl, fun s => rfl, fun m l => rfl, fun l => rfl⟩

/-- Witness for `addRating_out_of_range_noop` at the boundary scores
`6` and `0` on a concrete store. -/
theorem addRating_out_of_range_noop_witness :
    (addRating ⟨[⟨"a", 5, "good", 0, "u"⟩], [], true⟩ "a" 6 "x" "u" 1).1 = false ∧
    (addRating ⟨[⟨"a", 5, "good", 0, "u"⟩], [], true⟩ "a" 6 "x" "u" 1).2 =
      ⟨[⟨"a", 5, "good", 0, "u"⟩], [], true⟩ ∧
    getAgentRatings
        (addRating ⟨[⟨"a", 5, "good", 0, "u"⟩], [], true⟩ "a" 6 "x" "u" 1).2.ratings "a" =
      getAgentRatings [⟨"a", 5, "good", 0, "u"⟩] "a" ∧
    (addRating ⟨[⟨"a", 5, "good", 0, "u"⟩], [], true⟩ "a" 0 "x" "u" 1).1 = false :=
  ⟨(addRating_out_of_range_noop ⟨[⟨"a", 5, "good", 0, "u"⟩], [], true⟩ "a" 6 "x" "u" 1
      (by omega)).1,
   (addRating_out_of_range_noop ⟨[⟨"a", 5, "good", 0, "u"⟩], [], true⟩ "a" 6 "x" "u" 1
      (by omega)).2.1,
   (addRating_out_of_range_noop ⟨[⟨"a", 5, "good", 0, "u"⟩], [], true⟩ "a" 6 "x" "u" 1
      (by omega)).2.2.1 "a",
   (addRating_out_of_range_noop ⟨[⟨"a", 5, "good", 0, "u"⟩], [], true⟩ "a" 0 "x" "u" 1
      (by omega)).1⟩

/-- **C7.**  For any store whose ratings for a slug are exactly the
scores `[5, 5, 4, 3, 5]`, `get_agent_ratings` reports average `4.4`
(= 22/5 after rounding to one decimal), count `5`, and breakdown
`{1: 0, 2: 0, 3: 1, 4: 1, 5: 3}`. -/
theorem getAgentRatings_aggregation (rs : List RatingEntry) (slug : String)
    (h : statsFor rs slug = [5, 5, 4, 3, 5]) :
    (getAgentRatings rs slug).average_rating = 22/5 ∧
    (getAgentRatings rs slug).total_ratings = 5 ∧
    (getAgentRatings rs slug).ratings_breakdown 1 = 0 ∧
    (getAgentRatings rs slug).ratings_breakdown 2 = 0 ∧
    (getAgentRatings rs slug).ratings_breakdown 3 = 1 ∧
    (getAgentRatings rs slug).ratings_breakdown 4 = 1 ∧
    (getAgentRatings rs slug).ratings_breakdown 5 = 3 := by
  have hlen : (rs.filter fun r => r.agent_slug == slug).length = 5 := by
    have h2 := congrArg List.length h
    rw [statsFor, List.length_map] at h2
    simpa using h2
  have hne : (rs.filter fun r => r.agent_slug == slug).isEmpty = false := by
    cases hf : rs.filter fun r => r.agent_slug == slug with
    | nil => rw [hf] at hlen; cases hlen
    | cons a t => rfl
  unfold getAgentRatings
  rw [hne, if_neg Bool.false_ne_true, h]
  refine ⟨?_, hlen, ?_, ?_, ?_, ?_, ?_⟩
  · show pyRound1 ((([5, 5, 4, 3, 5] : List ℤ).sum : ℚ) /
        (([5, 5, 4, 3, 5] : List ℤ).length : ℚ)) = 22/5
    decide
  · show ([5, 5, 4, 3, 5] : List ℤ).count 1 = 0
    decide
  · show ([5, 5, 4, 3, 5] : List ℤ).count 2 = 0
    decide
  · show ([5, 5, 4, 3, 5] : List ℤ).count 3 = 1
    decide
  · show ([5, 5, 4, 3, 5] : List ℤ).count 4 = 1
    decide
  · show ([5, 5, 4, 3, 5] : List ℤ).count 5 = 3
    decide

/-- Witness for `getAgentRatings_aggregation` on the concrete
five-entry store. -/
theorem getAgentRatings_aggregation_witness :
    (getAgentRatings [⟨"X", 5, "", 0, "u"⟩, ⟨"X", 5, "", 1, "u"⟩, ⟨"X", 4, "", 2, "u"⟩,
        ⟨"X", 3, "", 3, "u"⟩, ⟨"X", 5, "", 4, "u"⟩] "X").average_rating = 22/5 ∧
    (getAgentRatings [⟨"X", 5, "", 0, "u"⟩, ⟨"X", 5, "", 1, "u"⟩, ⟨"X", 4, "", 2, "u"⟩,
        ⟨"X", 3, "", 3, "u"⟩, ⟨"X", 5, "", 4, "u"⟩] "X").total_ratings = 5 ∧
    (getAgentRatings [⟨"X", 5, "", 0, "u"⟩, ⟨"X", 5, "", 1, "u"⟩, ⟨"X", 4, "", 2, "u"⟩,
        ⟨"X", 3, "", 3, "u"⟩, ⟨"X", 5, "", 4, "u"⟩] "X").ratings_breakdown 3 = 1 ∧
    (getAgentRatings [⟨"X", 5, "", 0, "u"⟩, ⟨"X", 5, "", 1, "u"⟩, ⟨"X", 4, "", 2, "u"⟩,
        ⟨"X", 3, "", 3, "u"⟩, ⟨"X", 5, "", 4, "u"⟩] "X").ratings_breakdown 5 = 3 :=
  ⟨(getAgentRatings_aggregation _ "X" (by decide)).1,
   (getAgentRatings_aggregation _ "X" (by decide)).2.1,
   (getAgentRatings_aggregation _ "X" (by decide)).2.2.2.2.1,
   (getAgentRatings_aggregation _ "X" (by decide)).2.2.2.2.2.2⟩

theorem topLe_total (a b : TopAgentStat) : topLe a b || topLe b a := by
  simp only [topLe, Bool.or_eq_true, decide_eq_true_eq]
  rcases lt_trichotomy a.average_rating b.average_rating with h | h | h
  · exact Or.inl (Or.inl h)
  · rcases Nat.le_total a.total_ratings b.total_ratings with hc | hc
    · exact Or.inl (Or.inr ⟨h, hc⟩)
    · exact Or.inr (Or.inr ⟨h.symm, hc⟩)
  · exact Or.inr (Or.inl h)

theorem topLe_trans (a b c : TopAgentStat) (h1 : topLe a b = true) (h2 : topLe b c = true) :
    topLe a c = true := by
  simp only [topLe, decide_eq_true_eq] at h1 h2 ⊢
  rcases h1 with h1 | ⟨h1, h1'⟩
  · rcases h2 with h2 | ⟨h2, h2'⟩
    · exact Or.inl (h1.trans h2)
    · exact Or.inl (h2 ▸ h1)
  · rcases h2 with h2 | ⟨h2, h2'⟩
    · exact Or.inl (h1 ▸ h2)
    · exact Or.inr ⟨h1.trans h2, h1'.trans h2'⟩

/-- **C9.**  Every element of `get_top_rated_agents` comes from a slug
with at least `min_ratings` ratings in the store, and the result is
sorted descending with the (rounded) average as primary key and the
total count as tie-break. -/
theorem getTopRated_min_ratings_sorted (rs : List RatingEntry) (minR lim : ℕ) :
    (∀ e ∈ getTopRated rs minR lim,
      minR ≤ (rs.filter fun r => r.agent_slug == e.agent_slug).length) ∧
    (getTopRated rs minR lim).Pairwise (fun a b =>
      b.average_rating < a.average_rating ∨
      (b.average_rating = a.average_rating ∧ b.total_ratings ≤ a.total_ratings)) := by
  constructor
  · intro e he
    have he1 : e ∈ sortDescBy topLe (topCandidates rs minR) := List.mem_of_mem_take he
    have he2 : e ∈ topCandidates rs minR := (sortDescBy_perm topLe _).mem_iff.mp he1
    rcases List.mem_filterMap.mp he2 with ⟨s, _, hsome⟩
    split at hsome
    · next hmin =>
      have he3 : e = (⟨s, pyRound1 (((statsFor rs s).sum : ℚ) /
          ((statsFor rs s).length : ℚ)), (statsFor rs s).length⟩ : TopAgentStat) :=
        (Option.some_injective _ hsome).symm
      rw [he3]
      show minR ≤ (rs.filter fun r => r.agent_slug == s).length
      calc minR ≤ (statsFor rs s).length := hmin
        _ = (rs.filter fun r => r.agent_slug == s).length := by
            rw [statsFor, List.length_map]
    · cases hsome
  · have hp := sortDescBy_pairwise topLe_total topLe_trans (topCandidates rs minR)
    have hp2 := hp.sublist (List.take_sublist lim _)
    exact hp2.imp fun h => of_decide_eq_true h

/-- Witness for `getTopRated_min_ratings_sorted` on a concrete store
with two qualifying ratings for slug `"a"`. -/
theorem getTopRated_min_ratings_sorted_witness :
    2 ≤ (([⟨"a", 4, "", 0, "u"⟩, ⟨"a", 5, "", 1, "u"⟩] : List RatingEntry).filter fun r =>
      r.agent_slug == (⟨"a", 9/2, 2⟩ : TopAgentStat).agent_slug).length :=
  (getTopRated_min_ratings_sorted [⟨"a", 4, "", 0, "u"⟩, ⟨"a", 5, "", 1, "u"⟩] 2 10).1
    ⟨"a", 9/2, 2⟩ (by decide)

/-! ### The relevance engine (`intelligent_search.py`)

The fuzzywuzzy similarity primitives are third-party library
behaviour, not repository code: `simFn` models `fuzz.ratio` and
`psimFn` models `fuzz.partial_ratio`, each an integer similarity in
`0..100`, and the theorems quantify over them. -/

/-- The `domain_keywords` dictionary of `IntelligentSearch.__init__`,
in source order. -/
def domainKeywords : List (String × List String) :=
  [("Software Development", ["code", "coding", "programming", "developer", "development",
      "software", "github", "copilot", "ide", "autocomplete"]),
   ("Writing", ["writing", "content", "text", "article", "blog", "copywriting", "grammar",
      "editing", "documentation"]),
   ("Marketing", ["marketing", "ads", "advertising", "campaign", "social media", "email",
      "mailchimp", "hubspot", "sales"]),
   ("Productivity", ["productivity", "organize", "schedule", "task", "meeting", "notes",
      "calendar", "workflow", "automation"]),
   ("Image Generation", ["image", "picture", "photo", "visual", "art", "design", "dall-e",
      "midjourney", "stable diffusion"]),
   ("Audio Generation", ["audio", "voice", "speech", "sound", "music", "podcast", "tts",
      "text-to-speech"]),
   ("Video Generation", ["video", "animation", "movie", "clip", "motion", "multimedia"]),
   ("Education", ["learn", "education", "teaching", "tutor", "study", "academic", "student",
      "homework"]),
   ("Research", ["research", "analysis", "data", "information", "study", "investigation",
      "academic"]),
   ("Healthcare", ["health", "medical", "doctor", "patient", "diagnosis", "treatment",
      "medicine"]),
   ("Finance", ["finance", "money", "investment", "trading", "banking", "accounting",
      "budget"]),
   ("Customer Service", ["customer", "support", "service", "help", "chat", "ticket",
      "assistance"])]

/-- The `platform_keywords` dictionary. -/
def platformKeywords : List (String × List String) :=
  [("Web", ["web", "browser", "online", "website"]),
   ("API", ["api", "integration", "development", "programmatic"]),
   ("iOS", ["ios", "iphone", "ipad", "mobile", "app store"]),
   ("Android", ["android", "mobile", "google play"]),
   ("Desktop", ["desktop", "computer", "pc", "mac"]),
   ("Chrome Extension", ["chrome", "extension", "browser"]),
   ("VS Code Extension", ["vscode", "vs code", "editor", "ide"])]

/-- The `pricing_keywords` dictionary. -/
def pricingKeywords : List (String × List String) :=
  [("Free", ["free", "no cost", "gratis", "zero cost"]),
   ("Freemium", ["freemium", "free tier", "limited free"]),
   ("Paid", ["paid", "subscription", "premium", "cost", "price"])]

/-- The `stop_words` set of `extract_intent`. -/
def stopWords : List String :=
  ["for", "the", "and", "or", "but", "in", "on", "at", "to", "is", "are", "was", "were",
   "a", "an", "that", "this", "with", "i", "me", "my", "we", "our", "you", "your"]

/-- `re.findall(r'\w+', s)`: the maximal runs of word characters.  The
first argument accumulates the current run, reversed. -/
def wordRunsAux : List Char → List Char → List (List Char)
  | cur, [] => if cur.isEmpty then [] else [cur.reverse]
  | cur, c :: rest =>
    if isWordChar c then wordRunsAux (c :: cur) rest
    else if cur.isEmpty then wordRunsAux [] rest
    else cur.reverse :: wordRunsAux [] rest

/-- `re.findall(r'\w+', s)` on a character list. -/
def wordRuns (l : List Char) : List (List Char) := wordRunsAux [] l

/-- The intent dictionary produced by
`IntelligentSearch.extract_intent`. -/
structure Intent where
  domains : List String
  platforms : List String
  pricing : List String
  keywords : List String
deriving DecidableEq

/-- The label-collection loops of `extract_intent`: a label is
included when any of its trigger keywords occurs in the lowercased
query. -/
def matchedLabels (dict : List (String × List String)) (ql : String) : List String :=
  (dict.filter fun p => p.2.any fun k => substrB k ql).map fun p => p.1

/-- `IntelligentSearch.extract_intent`. -/
def extractIntent (query : String) : Intent :=
  ⟨matchedLabels domainKeywords (lowerStr query),
   matchedLabels platformKeywords (lowerStr query),
   matchedLabels pricingKeywords (lowerStr query),
   ((wordRuns (lowerStr query).data).map fun w => String.mk w).filter fun w =>
     !stopWords.contains w && decide (2 < w.length)⟩

/-- The `agent_text` concatenation of `calculate_relevance_score`. -/
def agentText (a : Agent) : String :=
  a.name ++ " " ++ a.short_desc ++ " " ++ a.long_desc ++ " " ++ a.domains ++ " " ++
    a.use_cases ++ " " ++ a.creator

/-- The fuzzy text component: `fuzz.partial_ratio(query.lower(),
agent_text.lower()) / 100.0 * 0.4`. -/
def fuzzyPart (psimFn : String → String → ℕ) (a : Agent) (q : String) : ℚ :=
  (psimFn (lowerStr q) (lowerStr (agentText a)) : ℚ) / 100 * (4/10)

/-- The domain-intent loop of `calculate_relevance_score` (source
lines 87–92): `0.3` is added once per matched intent domain that is
fuzzy-similar (ratio above 80) to some domain token of the entry.
(The enclosing `if intent['domains']:` guard is a no-op: iterating an
empty list adds nothing.) -/
def domainBonus (simFn : String → String → ℕ) (it : Intent) (a : Agent) : ℚ :=
  it.domains.foldl
    (fun sc d => if a.domain_list.any fun ad => 80 < simFn (lowerStr d) (lowerStr ad)
      then sc + 3/10 else sc) 0

/-- The platform-intent loop: `0.2` per similar matched platform. -/
def platformBonus (simFn : String → String → ℕ) (it : Intent) (a : Agent) : ℚ :=
  it.platforms.foldl
    (fun sc p => if a.platform_list.any fun ap => 80 < simFn (lowerStr p) (lowerStr ap)
      then sc + 2/10 else sc) 0

/-- The pricing-intent loop: `0.1` per matched pricing label similar
to the entry's normalized pricing tier. -/
def pricingBonus (simFn : String → String → ℕ) (it : Intent) (a : Agent) : ℚ :=
  it.pricing.foldl
    (fun sc p => if 80 < simFn (lowerStr p) (lowerStr a.pricing_clean)
      then sc + 1/10 else sc) 0

/-- The keyword loop over name / short / long description. -/
def kwBonus (it : Intent) (a : Agent) : ℚ :=
  it.keywords.foldl
    (fun sc k => sc + (if substrB k (lowerStr a.name) then 3/10 else 0) +
      (if substrB k (lowerStr a.short_desc) then 2/10 else 0) +
      (if substrB k (lowerStr a.long_desc) then 1/10 else 0)) 0

/-- `+0.15` when any content keyword occurs in the creator field. -/
def creatorBonus (it : Intent) (a : Agent) : ℚ :=
  if it.keywords.any fun k => substrB k (lowerStr a.creator) then 15/100 else 0

/-- The use-case loop: `0.1` per (keyword, use-case) pair whose
partial ratio exceeds 70. -/
def useCaseBonus (psimFn : String → String → ℕ) (it : Intent) (a : Agent) : ℚ :=
  it.keywords.foldl
    (fun sc k => a.use_case_list.foldl
      (fun sc2 uc => if 70 < psimFn k (lowerStr uc) then sc2 + 1/10 else sc2) sc) 0

/-- `IntelligentSearch.calculate_relevance_score`: the sum of the
contributions in source order, capped at `1.0`. -/
def calcScore (simFn psimFn : String → String → ℕ) (a : Agent) (q : String)
    (it : Intent) : ℚ :=
  min (fuzzyPart psimFn a q + domainBonus simFn it a + platformBonus simFn it a +
    pricingBonus simFn it a + kwBonus it a + creatorBonus it a +
    useCaseBonus psimFn it a) 1

/-- `IntelligentSearch.search` (source lines 130–149): score every
entry, keep those at or above `threshold` (pairing each with its
score), sort the pairs stably by descending score, and project the
entries out. -/
def searchFn (simFn psimFn : String → String → ℕ) (agents : List Agent) (q : String)
    (threshold : ℚ) : List Agent :=
  if trimStr q = "" then agents
  else
    (sortDescBy (fun x y : Agent × ℚ => decide (x.2 ≤ y.2))
      (agents.filterMap fun a =>
        if threshold ≤ calcScore simFn psimFn a (trimStr q) (extractIntent (trimStr q))
        then some (a, calcScore simFn psimFn a (trimStr q) (extractIntent (trimStr q)))
        else none)).map Prod.fst

/-! ### Claim C4 -/

/-- An equality similarity: it agrees with `fuzz.ratio` on every pair
of equal strings (ratio 100) and stays below the 80 threshold on the
dissimilar pairs the concrete statements exercise. -/
def eqSim (a b : String) : ℕ := if a = b then 100 else 0

/-- A concrete entry with domains `"Software Development;Writing"`,
used by the C4 counterexample. -/
def agentC4 : Agent :=
  mkAgent "DevWrite" "Software Development;Writing" "" "" "" "" "" "" "" "" "" "" ""

/-- **C4, counterexample.**  The claim says the domain-intent
contribution is exactly `+0.3` whenever at least one matched domain
label is similar to a domain token.  The query `"code writing"`
matches both the `Software Development` and the `Writing` labels, both
are similar (ratio 100) to a domain token of `agentC4`, and the
domain contribution is `0.6` — accumulated per label, not granted
once. -/
theorem domainBonus_accumulates :
    (∃ d ∈ (extractIntent "code writing").domains, ∃ ad ∈ agentC4.domain_list,
      80 < eqSim (lowerStr d) (lowerStr ad)) ∧
    domainBonus eqSim (extractIntent "code writing") agentC4 = 3/5 := by
  constructor
  · decide
  · decide

/-- The running-sum form of the bonus loops. -/
theorem foldl_bonus {α : Type} (p : α → Bool) (w : ℚ) :
    ∀ (l : List α) (c : ℚ),
      l.foldl (fun sc d => if p d then sc + w else sc) c = c + w * (l.countP p : ℚ) := by
  intro l
  induction l with
  | nil => intro c; simp
  | cons x t ih =>
    intro c
    rw [List.foldl_cons]
    by_cases hx : p x = true
    · rw [if_pos hx, ih, List.countP_cons_of_pos _ _ hx]
      push_cast
      ring
    · rw [if_neg hx, ih, List.countP_cons_of_neg _ _ hx]

/-- **C4, amended.**  The domain-intent contribution is `0.3` *per*
matched domain label that is fuzzy-similar to some domain token of the
entry: with `k` such labels it is `0.3 · k`, accumulated across
labels rather than granted once. -/
theorem domainBonus_per_label (simFn : String → String → ℕ) (q : String) (a : Agent) :
    domainBonus simFn (extractIntent q) a =
      (3/10 : ℚ) * (((extractIntent q).domains.countP fun d =>
        a.domain_list.any fun ad => 80 < simFn (lowerStr d) (lowerStr ad)) : ℚ) := by
  rw [domainBonus, foldl_bonus, zero_add]

/-! ### Claim C5 -/

/-- The specification of the score-filter-sort-project pipeline of
`IntelligentSearch.search`, for an arbitrary scoring function: the
result is a permutation of the entries reaching the threshold, it is
sorted by descending score, and for every score value the result's
entries of that score are exactly the qualifying input entries of
that score in input order (stability). -/
theorem searchResult_spec {β : Type} (score : β → ℚ) (θ : ℚ) (agents : List β) :
    ((sortDescBy (fun x y : β × ℚ => decide (x.2 ≤ y.2))
        (agents.filterMap fun a => if θ ≤ score a then some (a, score a) else none)).map
        Prod.fst).Perm (agents.filter fun a => decide (θ ≤ score a)) ∧
    ((sortDescBy (fun x y : β × ℚ => decide (x.2 ≤ y.2))
        (agents.filterMap fun a => if θ ≤ score a then some (a, score a) else none)).map
        Prod.fst).Pairwise (fun a b => score b ≤ score a) ∧
    ∀ s : ℚ, ((sortDescBy (fun x y : β × ℚ => decide (x.2 ≤ y.2))
        (agents.filterMap fun a => if θ ≤ score a then some (a, score a) else none)).map
        Prod.fst).filter (fun a => decide (score a = s)) =
      agents.filter fun a => decide (θ ≤ score a ∧ score a = s) := by
  have hscored : (agents.filterMap fun a => if θ ≤ score a then some (a, score a) else none) =
      (agents.filter fun a => decide (θ ≤ score a)).map fun a => (a, score a) := by
    induction agents with
    | nil => rfl
    | cons x t ih =>
      by_cases hx : θ ≤ score x
      · simp [List.filterMap_cons, List.filter_cons, hx, ih]
      · simp [List.filterMap_cons, List.filter_cons, hx, ih]
  rw [hscored]
  have hleTot : ∀ x y : β × ℚ,
      (fun x y : β × ℚ => decide (x.2 ≤ y.2)) x y ||
        (fun x y : β × ℚ => decide (x.2 ≤ y.2)) y x := by
    intro x y
    simp only [Bool.or_eq_true, decide_eq_true_eq]
    exact le_total x.2 y.2
  have hleTrans : ∀ x y z : β × ℚ,
      (fun x y : β × ℚ => decide (x.2 ≤ y.2)) x y = true →
      (fun x y : β × ℚ => decide (x.2 ≤ y.2)) y z = true →
      (fun x y : β × ℚ => decide (x.2 ≤ y.2)) x z = true := by
    intro x y z hxy hyz
    simp only [decide_eq_true_eq] at hxy hyz ⊢
    exact le_trans hxy hyz
  have hid : (Prod.fst ∘ fun a : β => (a, score a)) = fun a : β => a := rfl
  have hmem : ∀ x ∈ sortDescBy (fun x y : β × ℚ => decide (x.2 ≤ y.2))
      ((agents.filter fun a => decide (θ ≤ score a)).map fun a => (a, score a)),
      x.2 = score x.1 := by
    intro x hx
    have hx2 := (sortDescBy_perm _ _).mem_iff.mp hx
    rcases List.mem_map.mp hx2 with ⟨a, _, rfl⟩
    rfl
  refine ⟨?_, ?_, ?_⟩
  · have h1 := (sortDescBy_perm (fun x y : β × ℚ => decide (x.2 ≤ y.2))
      ((agents.filter fun a => decide (θ ≤ score a)).map fun a => (a, score a))).map Prod.fst
    rw [List.map_map, hid, List.map_id'] at h1
    exact h1
  · have hpw := sortDescBy_pairwise hleTot hleTrans
      ((agents.filter fun a => decide (θ ≤ score a)).map fun a => (a, score a))
    rw [List.pairwise_map]
    refine hpw.imp_of_mem ?_
    intro x y hx hy h
    have h2 : y.2 ≤ x.2 := of_decide_eq_true h
    rw [← hmem x hx, ← hmem y hy]
    exact h2
  · intro s
    rw [List.filter_map]
    have hcongr : (sortDescBy (fun x y : β × ℚ => decide (x.2 ≤ y.2))
          ((agents.filter fun a => decide (θ ≤ score a)).map fun a => (a, score a))).filter
          ((fun a => decide (score a = s)) ∘ Prod.fst) =
        (sortDescBy (fun x y : β × ℚ => decide (x.2 ≤ y.2))
          ((agents.filter fun a => decide (θ ≤ score a)).map fun a => (a, score a))).filter
          fun x => decide (x.2 = s) := by
      refine List.filter_congr ?_
      intro x hx
      show decide (score x.1 = s) = decide (x.2 = s)
      rw [← hmem x hx]
    rw [hcongr]
    have hp : ∀ x y : β × ℚ, (fun x : β × ℚ => decide (x.2 = s)) x = true →
        (fun x : β × ℚ => decide (x.2 = s)) y = true →
        (fun x y : β × ℚ => decide (x.2 ≤ y.2)) x y = true := by
      intro x y hx hy
      simp only [decide_eq_true_eq] at hx hy ⊢
      rw [hx, hy]
    rw [sortDescBy_filter _ hp, List.filter_map, List.map_map, hid, List.map_id',
      List.filter_filter]
    refine List.filter_congr ?_
    intro a _
    show (decide (score a = s) && decide (θ ≤ score a)) = decide (θ ≤ score a ∧ score a = s)
    rw [Bool.decide_and]
    exact Bool.and_comm _ _

/-- **C5.**  For every similarity primitive, entry sequence, and
non-blank query, `search` with the default threshold `0.1` returns a
permutation of exactly those input entries whose relevance score is at
least `0.1`, sorted by descending score, and for every score value the
returned entries of that score are the qualifying input entries of
that score in their original relative order (stable sort). -/
theorem searchFn_threshold_sorted_stable (simFn psimFn : String → String → ℕ)
    (agents : List Agent) (q : String) (hq : ¬(trimStr q = "")) :
    (searchFn simFn psimFn agents q (1/10)).Perm
      (agents.filter fun a =>
        decide ((1:ℚ)/10 ≤ calcScore simFn psimFn a (trimStr q) (extractIntent (trimStr q)))) ∧
    (searchFn simFn psimFn agents q (1/10)).Pairwise (fun a b =>
      calcScore simFn psimFn b (trimStr q) (extractIntent (trimStr q)) ≤
        calcScore simFn psimFn a (trimStr q) (extractIntent (trimStr q))) ∧
    ∀ s : ℚ, (searchFn simFn psimFn agents q (1/10)).filter
        (fun a => decide (calcScore simFn psimFn a (trimStr q) (extractIntent (trimStr q)) = s)) =
      agents.filter fun a =>
        decide ((1:ℚ)/10 ≤ calcScore simFn psimFn a (trimStr q) (extractIntent (trimStr q)) ∧
          calcScore simFn psimFn a (trimStr q) (extractIntent (trimStr q)) = s) := by
  have h := searchResult_spec
    (fun a => calcScore simFn psimFn a (trimStr q) (extractIntent (trimStr q))) (1/10) agents
  rw [searchFn, if_neg hq]
  exact h

/-- Concrete entries for the C5 witness. -/
def agentK : Agent := mkAgent "CodeHelper" "" "" "" "" "" "" "" "" "" "" "" ""

/-- A second concrete entry for the C5 witness. -/
def agentZ : Agent := mkAgent "Zed" "" "" "" "" "" "" "" "" "" "" "" ""

/-- Witness for `searchFn_threshold_sorted_stable` at the concrete
query `"code"` over a two-entry catalog. -/
theorem searchFn_threshold_sorted_stable_witness :
    (searchFn eqSim eqSim [agentK, agentZ] "code" (1/10)).Perm
      ([agentK, agentZ].filter fun a =>
        decide ((1:ℚ)/10 ≤ calcScore eqSim eqSim a (trimStr "code")
          (extractIntent (trimStr "code")))) :=
  (searchFn_threshold_sorted_stable eqSim eqSim [agentK, agentZ] "code" (by decide)).1

/-! ### The filter engine (`data_loader.py`, `DataLoader.search_agents`) -/

/-- The filter selections passed to `search_agents` (the `filters`
dict); a missing key is `none`.  The dict built by the `/api/search`
route may carry a `pricing` key. -/
structure Filters where
  domain : Option String
  use_case : Option String
  platform : Option String
  pricing : Option String
  model : Option String
  creator : Option String
deriving DecidableEq

/-- One `if filters.get(k): results = [agent for agent in results if
test]` step of `search_agents`: a missing or empty value leaves the
list unchanged (Python truthiness). -/
def applyCriterion (v : Option String) (test : String → Agent → Bool)
    (l : List Agent) : List Agent :=
  match v with
  | none => l
  | some s => if s = "" then l else l.filter (test s)

/-- `DataLoader.search_agents` (source lines 212–256): the optional
intelligent search followed by the criterion steps for `domain`,
`use_case`, `platform`, `model` and `creator` — the code has *no* step
for `pricing`; `filters['pricing']` is never read. -/
def searchAgents (simFn psimFn : String → String → ℕ) (agents : List Agent)
    (q : String) (f : Filters) : List Agent :=
  applyCriterion f.creator (fun s a => substrB (lowerStr s) (lowerStr a.creator))
    (applyCriterion f.model (fun s a => substrB (lowerStr s) (lowerStr a.underlying_model))
      (applyCriterion f.platform (fun s a => a.platform_list.contains s)
        (applyCriterion f.use_case (fun s a => a.use_case_list.contains s)
          (applyCriterion f.domain (fun s a => a.domain_list.contains s)
            (if q = "" then agents else searchFn simFn psimFn agents q (1/10))))))

/-- A `"Paid"` catalog entry, the C2 failing input. -/
def agentPaid : Agent :=
  mkAgent "Midjourney" "Image Generation" "" "" "" "" "" "" "Paid subscription" "" "" "" ""

/-- **C2** (code bug).  The spec's filter engine narrows by the
pricing facet, so `filter(entries, {pricing: "Free"})` over a catalog
with no Free entry must be empty.  `search_agents` never reads
`filters['pricing']` (there is no pricing step between the platform
and model steps, data_loader.py lines 236–243), although
`/api/search` passes a `pricing` criterion and `get_filter_options`
offers pricing values for the UI: the call returns the whole catalog
instead. -/
theorem searchAgents_ignores_pricing :
    agentPaid.pricing_clean = "Paid" ∧
    searchAgents eqSim eqSim [agentPaid] "" ⟨none, none, none, some "Free", none, none⟩ =
      [agentPaid] := by
  constructor
  · decide
  · decide

/-- Whether the entry passes one supplied criterion: a missing or
empty criterion constrains nothing. -/
def critOk (v : Option String) (p : String → Bool) : Bool :=
  match v with
  | none => true
  | some s => s == "" || p s

/-- The claim-side conjunction: the entry satisfies every supplied
non-empty criterion among domain, use-case, platform, model and
creator. -/
def satisfiesCriteria (f : Filters) (a : Agent) : Bool :=
  critOk f.domain (fun s => a.domain_list.contains s) &&
  critOk f.use_case (fun s => a.use_case_list.contains s) &&
  critOk f.platform (fun s => a.platform_list.contains s) &&
  critOk f.model (fun s => substrB (lowerStr s) (lowerStr a.underlying_model)) &&
  critOk f.creator (fun s => substrB (lowerStr s) (lowerStr a.creator))

theorem applyCriterion_eq_filter (v : Option String) (test : String → Agent → Bool)
    (l : List Agent) :
    applyCriterion v test l = l.filter fun a => critOk v fun s => test s a := by
  cases v with
  | none => simp [applyCriterion, critOk]
  | some s =>
    by_cases hs : s = ""
    · simp [applyCriterion, critOk, hs]
    · have hs2 : (s == "") = false := beq_eq_false_iff_ne.mpr hs
      simp [applyCriterion, critOk, hs, hs2]

/-- **C6.**  With criteria over the five supported fields (no pricing
key), filtering with an empty query returns exactly the input entries
that satisfy every supplied non-empty criterion, in input order — a
filter of the input, hence an order-preserving subsequence; absent or
empty criteria impose no constraint. -/
theorem searchAgents_filter_and (simFn psimFn : String → String → ℕ)
    (agents : List Agent) (f : Filters) (_hp : f.pricing = none) :
    searchAgents simFn psimFn agents "" f = agents.filter (satisfiesCriteria f) ∧
    (searchAgents simFn psimFn agents "" f).Sublist agents := by
  have key : searchAgents simFn psimFn agents "" f = agents.filter (satisfiesCriteria f) := by
    rw [searchAgents, if_pos rfl]
    rw [applyCriterion_eq_filter, applyCriterion_eq_filter, applyCriterion_eq_filter,
      applyCriterion_eq_filter, applyCriterion_eq_filter]
    rw [List.filter_filter, List.filter_filter, List.filter_filter, List.filter_filter]
    refine List.filter_congr ?_
    intro a _
    rw [satisfiesCriteria]
    generalize critOk f.domain (fun s => a.domain_list.contains s) = b1
    generalize critOk f.use_case (fun s => a.use_case_list.contains s) = b2
    generalize critOk f.platform (fun s => a.platform_list.contains s) = b3
    generalize critOk f.model (fun s => substrB (lowerStr s) (lowerStr a.underlying_model)) = b4
    generalize critOk f.creator (fun s => substrB (lowerStr s) (lowerStr a.creator)) = b5
    revert b1 b2 b3 b4 b5
    decide
  exact ⟨key, key ▸ List.filter_sublist agents⟩

/-- Witness for `searchAgents_filter_and`: a one-entry catalog and a
criteria mapping supplying `domain` and `creator` only. -/
theorem searchAgents_filter_and_witness :
    searchAgents eqSim eqSim
        [mkAgent "Lex" "Legal" "" "" "" "Acme Labs" "" "" "" "" "" "" ""] ""
        ⟨some "Legal", none, none, none, none, some "acme"⟩ =
      [mkAgent "Lex" "Legal" "" "" "" "Acme Labs" "" "" "" "" "" "" ""].filter
        (satisfiesCriteria ⟨some "Legal", none, none, none, none, some "acme"⟩) ∧
    (searchAgents eqSim eqSim
        [mkAgent "Lex" "Legal" "" "" "" "Acme Labs" "" "" "" "" "" "" ""] ""
        ⟨some "Legal", none, none, none, none, some "acme"⟩).Sublist
      [mkAgent "Lex" "Legal" "" "" "" "Acme Labs" "" "" "" "" "" "" ""] :=
  searchAgents_filter_and eqSim eqSim
    [mkAgent "Lex" "Legal" "" "" "" "Acme Labs" "" "" "" "" "" "" ""]
    ⟨some "Legal", none, none, none, none, some "acme"⟩ rfl

end AgentsDirectory
